import Mathlib

/-!
Verification development for the oss-sensor evidence pipeline.

The data model follows the repository's frontend type declarations
(`frontend/src/api.ts`); the pipeline components (SourceDiffAnalyzer,
BinaryFeatureExtractor, BinaryDiffMatcher, LogTemplateExtractor,
LogBinaryCorrelator, EvidenceBundleAssembler, ScoringEngine) live in the
Python backend, which is not part of the source snapshot, so they are
modelled from the specification document.  Floating-point scores are
modelled as exact rationals; strings are treated as their character lists.
-/

namespace OssSensor

/-! ## Generic helpers over character lists -/

/-- Boolean test that `pat` occurs as a contiguous infix of `l`. -/
def isSubList (pat : List Char) : List Char → Bool
  | [] => pat.isEmpty
  | c :: tl => pat.isPrefixOf (c :: tl) || isSubList pat tl

theorem isSubList_eq_true_iff (pat l : List Char) :
    isSubList pat l = true ↔ pat <:+: l := by
  induction l with
  | nil =>
    simp [isSubList, List.isEmpty_iff]
  | cons c tl ih =>
    simp [isSubList, List.infix_cons_iff, ih, List.isPrefixOf_iff_prefix]

/-- Dropping a prefix by predicate never lengthens a list. -/
theorem dropWhile_length_le {α : Type} (p : α → Bool) (l : List α) :
    (l.dropWhile p).length ≤ l.length :=
  (List.dropWhile_suffix p).length_le

theorem dropWhile_length_lt {α : Type} (p : α → Bool) (l : List α) :
    (l.dropWhile p).length < l.length + 1 :=
  Nat.lt_succ_of_le (dropWhile_length_le p l)

theorem drop_dropWhile_length_lt {α : Type} (p : α → Bool) (l : List α) :
    ((l.drop 1).dropWhile p).length < l.length + 1 :=
  Nat.lt_succ_of_le (le_trans (dropWhile_length_le p (l.drop 1))
    (le_trans (Nat.le_of_eq (List.length_drop 1 l)) (Nat.sub_le _ _)))

theorem dropWhile_drop_length_lt {α : Type} (p : α → Bool) (l : List α) :
    ((l.dropWhile p).drop 1).length < l.length + 1 :=
  Nat.lt_succ_of_le (le_trans (le_trans (Nat.le_of_eq (List.length_drop 1 _))
    (Nat.sub_le _ _)) (dropWhile_length_le p l))

/-- Keep the first occurrence of every element, in first-seen order. -/
def firstSeenDedup {α : Type} [DecidableEq α] : List α → List α
  | [] => []
  | a :: as => a :: firstSeenDedup (as.filter (fun x => x ≠ a))
termination_by l => l.length
decreasing_by
  exact Nat.lt_succ_of_le (List.length_filter_le _ _)

/-! ## Data model

Record shapes are taken from `frontend/src/api.ts` where that file declares
them (`EvidenceRef`, `Reason`, `ScoreResult`, `DiffHunk`, `EvidenceBundle`);
the remaining shapes (`SourceFeature`, `BinaryFeatureSet`, `BinaryDiffPair`,
`LogTemplate`) are modelled from the spec's data-model section. -/

/-- EvidenceRef, from `frontend/src/api.ts`:
`{ref_type, artifact_id: string | null, stable_id}`. -/
structure EvidenceRef where
  ref_type : String
  artifact_id : Option String
  stable_id : String
deriving DecidableEq, Repr

/-- Reason, from `frontend/src/api.ts`: the explanation field is named
`reason` there (the interface is `{reason, score_contribution,
evidence_refs}`), and `DiffDetailView.tsx` renders `r.reason`. -/
structure Reason where
  reason : String
  score_contribution : Rat
  evidence_refs : List EvidenceRef
deriving DecidableEq, Repr

/-- ScoreResult, from `frontend/src/api.ts`. -/
structure ScoreResult where
  total_score : Rat
  reasons : List Reason
  diff_id : String
deriving DecidableEq, Repr

/-- DiffHunk, from `frontend/src/api.ts`. -/
structure DiffHunk where
  file_path : String
  old_start : Nat
  old_count : Nat
  new_start : Nat
  new_count : Nat
  lines : List String
  hunk_id : String
deriving DecidableEq, Repr

/-- Modelled from the spec: `SourceFeature` (the backend analyzer source is
not in the snapshot) — a tagged observation carrying the originating
`hunk_id`(s). -/
structure SourceFeature where
  kind : String
  feature_id : String
  hunk_ids : List String
deriving DecidableEq, Repr

/-- Modelled from the spec: `BinaryFeatureSet` — per-artifact
`{strings[], imports[], symbols[]}` plus the recorded
truncation/malformation notices required by the spec's error taxonomy. -/
structure BinaryFeatureSet where
  strings : List String
  imports : List String
  symbols : List String
  notices : List String
deriving DecidableEq, Repr

/-- Modelled from the spec: the match basis of a `BinaryDiffPair`
(name, address, or none — unmatched is a recordable outcome). -/
inductive MatchBasis where
  | byName
  | byAddress
  | unmatched
deriving DecidableEq, Repr

/-- Modelled from the spec: `BinaryDiffPair` — a matched
`(symbol_from, symbol_to)` pair with its match basis. -/
structure BinaryDiffPair where
  symbol_from : Option String
  symbol_to : Option String
  match_basis : MatchBasis
deriving DecidableEq, Repr

/-- Modelled from the spec: `LogTemplate` —
`{subsystem, category, format_string, template_id}`. -/
structure LogTemplate where
  subsystem : String
  category : String
  format_string : String
  template_id : String
deriving DecidableEq, Repr

/-- EvidenceBundle, from `frontend/src/api.ts` (binary features refined to
`BinaryFeatureSet` per the spec's data model; `log_to_binary_matches` is
the `[string, string][]` of `(template_id, matched_string)` pairs). -/
structure EvidenceBundle where
  diff_hunks : List DiffHunk
  source_features : List SourceFeature
  binary_features_from : BinaryFeatureSet
  binary_features_to : BinaryFeatureSet
  binary_diff_pairs : List BinaryDiffPair
  log_templates : List LogTemplate
  log_to_binary_matches : List (String × String)
deriving DecidableEq, Repr

/-! ## SourceDiffAnalyzer

Modelled from the spec: the backend analyzer source is not in the snapshot.
Hunk computation uses the standard longest-common-subsequence line diff;
output is in file-path order, then position order within a file; a file
present on only one side produces a sentinel hunk with the missing side's
start/count as 0/0; feature derivation scans hunk line content for the
spec's pattern classes. -/

/-- Longer of two candidate common subsequences. -/
def longerList (xs ys : List String) : List String :=
  if xs.length < ys.length then ys else xs

/-- Longest common subsequence, fuelled for structural recursion; every
call consumes at least one element, so fuel above the combined length
never runs out. -/
def lcsFuel : Nat → List String → List String → List String
  | 0, _, _ => []
  | _ + 1, [], _ => []
  | _ + 1, _ :: _, [] => []
  | fuel + 1, a :: as, b :: bs =>
    if a = b then a :: lcsFuel fuel as bs
    else longerList (lcsFuel fuel (a :: as) bs) (lcsFuel fuel as (b :: bs))

/-- Longest common subsequence of two line lists. -/
def lcs (olds news : List String) : List String :=
  lcsFuel (olds.length + news.length + 1) olds news

/-- One line-level edit operation. -/
inductive DiffOp where
  | keep (line : String)
  | del (line : String)
  | ins (line : String)
deriving DecidableEq, Repr

/-- Replay a common subsequence against both sides to produce edit ops,
fuelled for structural recursion; every call consumes at least one
element of the two sides. -/
def opsAgainst : Nat → List String → List String → List String → List DiffOp
  | 0, _, _, _ => []
  | _ + 1, _, [], news => news.map DiffOp.ins
  | _ + 1, _, o :: os, [] => (o :: os).map DiffOp.del
  | _ + 1, [], o :: os, n :: ns =>
    (o :: os).map DiffOp.del ++ (n :: ns).map DiffOp.ins
  | fuel + 1, c :: cs, o :: os, n :: ns =>
    if o = c then
      if n = c then DiffOp.keep c :: opsAgainst fuel cs os ns
      else DiffOp.ins n :: opsAgainst fuel (c :: cs) (o :: os) ns
    else DiffOp.del o :: opsAgainst fuel (c :: cs) os (n :: ns)

/-- Edit script between two line lists. -/
def diffOps (olds news : List String) : List DiffOp :=
  opsAgainst (olds.length + news.length + 1) (lcs olds news) olds news

/-- Deterministic StableId of a hunk, derived from the file path and the
1-based old/new start positions. -/
def hunkIdOf (path : String) (old_start new_start : Nat) : String :=
  path ++ "@" ++ toString old_start ++ "+" ++ toString new_start

/-- Build one `DiffHunk` from a contiguous changed region. -/
def mkHunk (path : String) (old_start new_start : Nat)
    (dels inss : List String) : DiffHunk :=
  { file_path := path
    old_start := old_start
    old_count := dels.length
    new_start := new_start
    new_count := inss.length
    lines := dels.map (fun l => "-" ++ l) ++ inss.map (fun l => "+" ++ l)
    hunk_id := hunkIdOf path old_start new_start }

/-- Walk the edit script, grouping each maximal run of del/ins ops into one
hunk.  `o`/`n` are the next 1-based line numbers on each side; `pd`/`pi`
accumulate the pending run (in order); `po`/`pn` remember where it began. -/
def hunksGo (path : String) : List DiffOp → Nat → Nat →
    List String → List String → Nat → Nat → List DiffHunk
  | [], _, _, pd, pi, po, pn =>
    if pd.isEmpty && pi.isEmpty then [] else [mkHunk path po pn pd pi]
  | DiffOp.keep _ :: rest, o, n, pd, pi, po, pn =>
    if pd.isEmpty && pi.isEmpty then hunksGo path rest (o + 1) (n + 1) [] [] (o + 1) (n + 1)
    else mkHunk path po pn pd pi :: hunksGo path rest (o + 1) (n + 1) [] [] (o + 1) (n + 1)
  | DiffOp.del l :: rest, o, n, pd, pi, po, pn =>
    hunksGo path rest (o + 1) n (pd ++ [l]) pi po pn
  | DiffOp.ins l :: rest, o, n, pd, pi, po, pn =>
    hunksGo path rest o (n + 1) pd (pi ++ [l]) po pn

/-- Hunks of one file present on both sides. -/
def hunksOfFile (path : String) (olds news : List String) : List DiffHunk :=
  hunksGo path (diffOps olds news) 1 1 [] [] 1 1

/-- Sentinel hunk for a file present only on the old side (removed file):
the missing side's start/count are 0/0. -/
def removedFileHunk (path : String) (olds : List String) : DiffHunk :=
  { file_path := path, old_start := 1, old_count := olds.length
    new_start := 0, new_count := 0
    lines := olds.map (fun l => "-" ++ l)
    hunk_id := hunkIdOf path 1 0 }

/-- Sentinel hunk for a file present only on the new side (added file). -/
def addedFileHunk (path : String) (news : List String) : DiffHunk :=
  { file_path := path, old_start := 0, old_count := 0
    new_start := 1, new_count := news.length
    lines := news.map (fun l => "+" ++ l)
    hunk_id := hunkIdOf path 0 1 }

/-- Lexicographic order on character lists by code point. -/
def listCharLe : List Char → List Char → Bool
  | [], _ => true
  | _ :: _, [] => false
  | a :: as, b :: bs =>
    if a = b then listCharLe as bs else decide (a.toNat < b.toNat)

/-- Insert a path into a sorted path list. -/
def insertPath (x : String) : List String → List String
  | [] => [x]
  | y :: ys => if listCharLe x.toList y.toList then x :: y :: ys else y :: insertPath x ys

/-- Insertion sort of paths (deterministic file-path order). -/
def sortPaths : List String → List String
  | [] => []
  | x :: xs => insertPath x (sortPaths xs)

/-- Collapse adjacent duplicates of a sorted list. -/
def uniqAdjacent : List String → List String
  | [] => []
  | [a] => [a]
  | a :: b :: rest =>
    if a = b then uniqAdjacent (b :: rest) else a :: uniqAdjacent (b :: rest)

/-- A source tree: file path paired with that file's lines. -/
abbrev SourceTree := List (String × List String)

/-- First entry of a tree at a path, if any. -/
def treeLookup (t : SourceTree) (path : String) : Option (List String) :=
  (t.find? (fun e => e.1 = path)).map (·.2)

/-- Hunks contributed by one path of the union of both trees. -/
def hunksOfPath (tFrom tTo : SourceTree) (path : String) : List DiffHunk :=
  match treeLookup tFrom path, treeLookup tTo path with
  | some olds, some news => hunksOfFile path olds news
  | some olds, none => [removedFileHunk path olds]
  | none, some news => [addedFileHunk path news]
  | none, none => []

/-- SourceDiffAnalyzer hunk output: file-path order, then position order
within each file. -/
def sourceDiffHunks (tFrom tTo : SourceTree) : List DiffHunk :=
  (uniqAdjacent (sortPaths ((tFrom ++ tTo).map (·.1)))).flatMap
    (hunksOfPath tFrom tTo)

/-- Substring test on strings. -/
def strContains (hay pat : String) : Bool := isSubList pat.toList hay.toList

/-- Modelled from the spec: allocation-sizing pattern — a multiplication
feeding an allocation call. -/
def isAllocLine (l : String) : Bool := strContains l "malloc(" && strContains l "*"

/-- Modelled from the spec: bounds-check pattern — a guard expression
testing the allocation arithmetic. -/
def isBoundsLine (l : String) : Bool := strContains l "if " && strContains l "/ sizeof"

/-- Modelled from the spec: parsing-logic marker — reading a length/count
field from external input. -/
def isParseLine (l : String) : Bool := strContains l "parse"

/-- Modelled from the spec: privilege-check marker. -/
def isPrivLine (l : String) : Bool := strContains l "priv"

/-- Deterministic StableId of a feature, derived from its kind and hunk. -/
def featureIdOf (kind hunk_id : String) : String :=
  "feat:" ++ kind ++ ":" ++ hunk_id

/-- Feature of the given kind citing the originating hunk. -/
def mkFeature (kind : String) (h : DiffHunk) : SourceFeature :=
  { kind := kind, feature_id := featureIdOf kind h.hunk_id, hunk_ids := [h.hunk_id] }

/-- Modelled from the spec: feature derivation scans hunk line content for
the pattern classes; a hunk may yield zero features. -/
def featuresOfHunk (h : DiffHunk) : List SourceFeature :=
  (if h.lines.any isAllocLine then [mkFeature "alloc_math" h] else []) ++
  (if h.lines.any isBoundsLine then [mkFeature "bounds_check" h] else []) ++
  (if h.lines.any isParseLine then [mkFeature "parsing" h] else []) ++
  (if h.lines.any isPrivLine then [mkFeature "privilege" h] else [])

/-- Derived `SourceFeature` list of a hunk sequence. -/
def deriveFeatures (hunks : List DiffHunk) : List SourceFeature :=
  hunks.flatMap featuresOfHunk

/-! ## BinaryFeatureExtractor

Modelled from the spec: the backend extractor source is not in the
snapshot.  Extraction is read-only and format-aware (header magic
validation, string-table walk with a minimum printable-length threshold,
import/symbol walk); a malformed or truncated binary yields a
`BinaryFeatureSet` with all fields empty plus a recorded notice. -/

/-- Printable-byte test for the string-table walk. -/
def isPrintableByte (b : Nat) : Bool := 32 ≤ b && b ≤ 126

/-- Minimum printable-length threshold for extracted strings. -/
def minStringLen : Nat := 4

/-- Walk the byte stream collecting maximal printable runs of at least
`minStringLen` characters.  `cur` holds the current run reversed. -/
def stringRuns : List Nat → List Char → List String
  | [], cur =>
    if minStringLen ≤ cur.length then [String.mk cur.reverse] else []
  | b :: rest, cur =>
    if isPrintableByte b then stringRuns rest (Char.ofNat b :: cur)
    else
      (if minStringLen ≤ cur.length then [String.mk cur.reverse] else []) ++
        stringRuns rest []

/-- Extracted strings of a byte stream. -/
def extractStrings (bytes : List Nat) : List String := stringRuns bytes []

/-- Modelled from the spec: the Mach-O magic expected by header
validation (the demo fixtures are "fake Mach-O (magic + strings)"). -/
def machoMagic : List Nat := [0xcf, 0xfa, 0xed, 0xfe]

/-- Header length below which an artifact counts as truncated mid-header. -/
def machoHeaderLen : Nat := 8

/-- Header magic validation: magic bytes present and header complete. -/
def validHeader (bytes : List Nat) : Bool :=
  decide (bytes.take 4 = machoMagic) && machoHeaderLen ≤ bytes.length

/-- Modelled from the spec: symbol-table walk, represented as the
printable strings carrying the symbol marker prefix. -/
def symbolStrings (strs : List String) : List String :=
  strs.filter (fun s => isSubList ['_'] (s.toList.take 1))

/-- Modelled from the spec: import-table walk, represented as the
printable strings carrying the dylib marker prefix. -/
def importStrings (strs : List String) : List String :=
  strs.filter (fun s => isSubList ['@'] (s.toList.take 1))

/-- BinaryFeatureExtractor: on a valid header, populate strings, imports
and symbols; on a malformed or truncated artifact, return empty fields
together with a recorded notice (never abort). -/
def extractBinaryFeatures (bytes : List Nat) : BinaryFeatureSet :=
  if validHeader bytes then
    let strs := extractStrings (bytes.drop machoHeaderLen)
    { strings := strs
      imports := importStrings strs
      symbols := symbolStrings strs
      notices := [] }
  else
    { strings := [], imports := [], symbols := []
      notices := ["malformed or truncated binary"] }

/-! ## BinaryDiffMatcher

Modelled from the spec: symbols are matched first by exact name equality;
names appearing on only one side are left unmatched (a recordable
outcome, not an error); order is the stable order of first occurrence. -/

/-- BinaryDiffMatcher over two extracted feature sets. -/
def binaryDiffMatcher (fromF toF : BinaryFeatureSet) : List BinaryDiffPair :=
  fromF.symbols.map (fun s =>
    if s ∈ toF.symbols then
      { symbol_from := some s, symbol_to := some s, match_basis := MatchBasis.byName }
    else
      { symbol_from := some s, symbol_to := none, match_basis := MatchBasis.unmatched }) ++
  (toF.symbols.filter (fun s => decide (s ∉ fromF.symbols))).map (fun s =>
    { symbol_from := none, symbol_to := some s, match_basis := MatchBasis.unmatched })

/-! ## LogTemplateExtractor

Modelled from the spec: template derivation replaces variable tokens
(numbers, hex addresses, quoted strings) with placeholders; output is
deduplicated by `(subsystem, category, format_string)` in first-seen
order; `template_id` is a StableId derived from that triple. -/

/-- One raw log line: subsystem, category and the free-text message. -/
structure RawLogLine where
  subsystem : String
  category : String
  message : String
deriving DecidableEq, Repr

/-- Hex-digit test. -/
def isHexDigit (c : Char) : Bool :=
  c.isDigit || ('a' ≤ c && c ≤ 'f') || ('A' ≤ c && c ≤ 'F')

/-- Replace variable tokens of a message with placeholders, fuelled for
structural recursion (every call consumes at least one character): `0x…`
hex addresses become `<HEX>`, digit runs become `<NUM>`, double-quoted
strings become `<STR>`. -/
def normChars : Nat → List Char → List Char
  | 0, _ => []
  | _ + 1, [] => []
  | fuel + 1, c :: cs =>
    if c = '0' && (cs.take 1 = ['x'] || cs.take 1 = ['X']) then
      '<' :: 'H' :: 'E' :: 'X' :: '>' ::
        normChars fuel ((cs.drop 1).dropWhile isHexDigit)
    else if c.isDigit then
      '<' :: 'N' :: 'U' :: 'M' :: '>' :: normChars fuel (cs.dropWhile Char.isDigit)
    else if c = '"' then
      '<' :: 'S' :: 'T' :: 'R' :: '>' ::
        normChars fuel ((cs.dropWhile (fun d => d ≠ '"')).drop 1)
    else
      c :: normChars fuel cs

/-- Normalized format string of a raw message. -/
def normalizeMessage (msg : String) : String :=
  String.mk (normChars (msg.toList.length + 1) msg.toList)

/-- Template key: the `(subsystem, category, format_string)` triple. -/
abbrev TemplateKey := String × String × String

/-- Key of a raw line after normalization. -/
def rawKey (l : RawLogLine) : TemplateKey :=
  (l.subsystem, l.category, normalizeMessage l.message)

/-- Deterministic StableId of a template, derived from its key. -/
def templateIdOf (k : TemplateKey) : String :=
  "tmpl:" ++ k.1 ++ "|" ++ k.2.1 ++ "|" ++ k.2.2

/-- Template with the given key and its derived StableId. -/
def mkTemplate (k : TemplateKey) : LogTemplate :=
  { subsystem := k.1, category := k.2.1, format_string := k.2.2
    template_id := templateIdOf k }

/-- Fold over the stream keeping a seen-key set, emitting each distinct
key's template at its first occurrence. -/
def extractGo : List RawLogLine → List TemplateKey → List LogTemplate
  | [], _ => []
  | l :: rest, seen =>
    let k := rawKey l
    if k ∈ seen then extractGo rest seen
    else mkTemplate k :: extractGo rest (k :: seen)

/-- LogTemplateExtractor over one build's raw log stream. -/
def extractTemplates (lines : List RawLogLine) : List LogTemplate :=
  extractGo lines []

/-! ## LogBinaryCorrelator

Modelled from the spec: every `(template_id, string)` pair where the
template's literal format string, or a literal fragment of it (the pieces
between placeholders), is found verbatim as a substring in the binary's
string table; a pure substring-membership test, no fuzzy matching. -/

/-- Split a format string's characters at `<…>` placeholder spans,
returning the literal pieces, fuelled for structural recursion.  `cur`
holds the current piece reversed. -/
def fragsGo : Nat → List Char → List Char → List (List Char)
  | 0, _, cur => [cur.reverse]
  | _ + 1, [], cur => [cur.reverse]
  | fuel + 1, '<' :: rest, cur =>
    cur.reverse :: fragsGo fuel ((rest.dropWhile (fun d => d ≠ '>')).drop 1) []
  | fuel + 1, c :: rest, cur => fragsGo fuel rest (c :: cur)

/-- Literal fragments of a template's format string (nonempty pieces
between placeholders; a placeholder-free format string yields itself). -/
def fragments (format_string : String) : List String :=
  ((fragsGo (format_string.toList.length + 1) format_string.toList []).filter
    (fun l => l ≠ [])).map String.mk

/-- Does some literal fragment of the format string occur verbatim as a
substring of `s`? -/
def fragmentHits (format_string s : String) : Bool :=
  (fragments format_string).any (fun frag => isSubList frag.toList s.toList)

/-- LogBinaryCorrelator: all `(template_id, string)` pairs whose literal
content is found verbatim in the binary's string table. -/
def logBinaryCorrelator (templates : List LogTemplate)
    (bin : BinaryFeatureSet) : List (String × String) :=
  templates.flatMap (fun t =>
    (bin.strings.filter (fun s => fragmentHits t.format_string s)).map
      (fun s => (t.template_id, s)))

/-! ## EvidenceBundleAssembler

Modelled from the spec: pure aggregation that validates that every
StableId referenced anywhere in the bundle resolves within the bundle and
raises an assembly failure, not a silent drop, if not. -/

/-- StableIds of the entities present in a bundle: hunk ids, feature ids,
symbols and strings of both binary feature sets, and template ids. -/
def EvidenceBundle.stableIds (b : EvidenceBundle) : List String :=
  b.diff_hunks.map (·.hunk_id) ++
  b.source_features.map (·.feature_id) ++
  b.binary_features_from.symbols ++ b.binary_features_to.symbols ++
  b.binary_features_from.strings ++ b.binary_features_to.strings ++
  b.log_templates.map (·.template_id)

/-- StableIds cited by one binary diff pair. -/
def pairSymbols (p : BinaryDiffPair) : List String :=
  p.symbol_from.toList ++ p.symbol_to.toList

/-- Every StableId referenced from inside the bundle: the hunk ids cited
by source features, the symbols cited by binary diff pairs, and the
template ids and matched strings cited by log-to-binary lbMatches. -/
def EvidenceBundle.referencedIds (b : EvidenceBundle) : List String :=
  b.source_features.flatMap (·.hunk_ids) ++
  b.binary_diff_pairs.flatMap pairSymbols ++
  b.log_to_binary_matches.flatMap (fun m => [m.1, m.2])

/-- Does a single EvidenceRef resolve within the bundle? -/
def EvidenceBundle.resolves (b : EvidenceBundle) (r : EvidenceRef) : Prop :=
  r.stable_id ∈ b.stableIds

/-- Raw aggregation of the component outputs into one bundle record. -/
def mkBundle (hunks : List DiffHunk) (feats : List SourceFeature)
    (bfFrom bfTo : BinaryFeatureSet) (pairs : List BinaryDiffPair)
    (templates : List LogTemplate) (lbMatches : List (String × String)) :
    EvidenceBundle :=
  { diff_hunks := hunks
    source_features := feats
    binary_features_from := bfFrom
    binary_features_to := bfTo
    binary_diff_pairs := pairs
    log_templates := templates
    log_to_binary_matches := lbMatches }

/-- EvidenceBundleAssembler: validate that every referenced StableId
resolves within the bundle; raise an assembly failure otherwise. -/
def assembleBundle (hunks : List DiffHunk) (feats : List SourceFeature)
    (bfFrom bfTo : BinaryFeatureSet) (pairs : List BinaryDiffPair)
    (templates : List LogTemplate) (lbMatches : List (String × String)) :
    Except String EvidenceBundle :=
  let b := mkBundle hunks feats bfFrom bfTo pairs templates lbMatches
  if _h : ∀ id ∈ b.referencedIds, id ∈ b.stableIds then Except.ok b
  else Except.error "assembly failure: dangling stable_id"

/-! ## ScoringEngine

Modelled from the spec: a fixed, versioned set of scoring rules, each
inspecting the bundle for a specific evidence pattern and emitting one
`Reason` per match with a fixed contribution and the EvidenceRefs that
triggered it; the total is the plain sum of the contributions. -/

/-- EvidenceRef pointing at a bundle entity by StableId. -/
def mkRef (ref_type stable_id : String) : EvidenceRef :=
  { ref_type := ref_type, artifact_id := none, stable_id := stable_id }

/-- Contribution of the allocation-sizing-without-bounds-check rule
(high). -/
def allocContribution : Rat := 50

/-- Contribution of the log-to-binary-match rule (moderate). -/
def logMatchContribution : Rat := 10

/-- Contribution of the unmatched-binary-pair rule (low). -/
def unmatchedContribution : Rat := 5

/-- Is there a bounds-check feature sharing a hunk with `f`? -/
def hasPairedBoundsCheck (b : EvidenceBundle) (f : SourceFeature) : Bool :=
  b.source_features.any (fun g =>
    g.kind = "bounds_check" && f.hunk_ids.any (fun hid => hid ∈ g.hunk_ids))

/-- Rule: allocation sizing feature present without a paired bounds-check
feature in the same hunk; cites the feature and the hunk(s). -/
def allocRule (b : EvidenceBundle) : List Reason :=
  (b.source_features.filter (fun f =>
      f.kind = "alloc_math" && !hasPairedBoundsCheck b f)).map (fun f =>
    { reason := "allocation sizing without paired bounds check"
      score_contribution := allocContribution
      evidence_refs :=
        mkRef "source_feature" f.feature_id ::
          f.hunk_ids.map (mkRef "diff_hunk") })

/-- Rule: a log-to-binary match exists; cites the template and the
matched string. -/
def logMatchRule (b : EvidenceBundle) : List Reason :=
  b.log_to_binary_matches.map (fun m =>
    { reason := "log template lbMatches binary string"
      score_contribution := logMatchContribution
      evidence_refs := [mkRef "log_template" m.1, mkRef "binary_string" m.2] })

/-- Rule: a binary diff pair is unmatched across builds for a component
with source changes; cites the symbol. -/
def unmatchedRule (b : EvidenceBundle) : List Reason :=
  if b.diff_hunks.isEmpty then []
  else
    (b.binary_diff_pairs.filter
        (fun p => p.match_basis = MatchBasis.unmatched)).flatMap (fun p =>
      (pairSymbols p).map (fun s =>
        { reason := "unmatched symbol across builds with source changes"
          score_contribution := unmatchedContribution
          evidence_refs := [mkRef "symbol" s] }))

/-- The fixed rule set, as an enumerable list in declaration order. -/
def scoringRules : List (EvidenceBundle → List Reason) :=
  [allocRule, logMatchRule, unmatchedRule]

/-- Run a rule list over a bundle: reasons in rule-declaration order, the
total being the sum of the contributions with no other adjustment. -/
def scoreWithRules (rules : List (EvidenceBundle → List Reason))
    (b : EvidenceBundle) (diff_id : String) : ScoreResult :=
  let reasons := rules.flatMap (fun rule => rule b)
  { total_score := (reasons.map (·.score_contribution)).sum
    reasons := reasons
    diff_id := diff_id }

/-- ScoringEngine with the fixed rule set. -/
def scoreBundle (b : EvidenceBundle) (diff_id : String) : ScoreResult :=
  scoreWithRules scoringRules b diff_id

/-! ## Full pipeline -/

/-- Modelled from the spec: the full diff run — per-build extraction,
cross-build correlation, bundle assembly, scoring.  Correlation lbMatches
the to-build's templates against the to-build's binary string table; both
builds' templates enter the bundle. -/
def runPipeline (treeFrom treeTo : SourceTree) (binFrom binTo : List Nat)
    (logsFrom logsTo : List RawLogLine) (diff_id : String) :
    Except String (EvidenceBundle × ScoreResult) :=
  let hunks := sourceDiffHunks treeFrom treeTo
  let feats := deriveFeatures hunks
  let bfFrom := extractBinaryFeatures binFrom
  let bfTo := extractBinaryFeatures binTo
  let pairs := binaryDiffMatcher bfFrom bfTo
  let templatesFrom := extractTemplates logsFrom
  let templatesTo := extractTemplates logsTo
  let lbMatches := logBinaryCorrelator templatesTo bfTo
  match assembleBundle hunks feats bfFrom bfTo pairs
      (templatesFrom ++ templatesTo) lbMatches with
  | Except.error e => Except.error e
  | Except.ok b => Except.ok (b, scoreBundle b diff_id)

/-! ## Frontend API client (`frontend/src/api.ts`, `QueueView.tsx`) -/

/-- JSON-object key list of the `Reason` interface as declared in
`frontend/src/api.ts`, in declaration order. -/
def reasonKeys : List String := ["reason", "score_contribution", "evidence_refs"]

/-- Key list of the spec's `Reason` record,
`{text, score_contribution: float, evidence_refs[EvidenceRef]}`, written
from the spec's words for comparison with the source's `reasonKeys`. -/
def reasonSpecKeys : List String := ["text", "score_contribution", "evidence_refs"]

/-- Prefix test on strings. -/
def strStartsWith (s pre : String) : Bool := pre.toList.isPrefixOf s.toList

/-- Suffix test on strings. -/
def strEndsWith (s suf : String) : Bool := suf.toList.isSuffixOf s.toList

/-- Drop the last `n` characters of a string. -/
def strDropRight (s : String) (n : Nat) : String :=
  String.mk (s.toList.take (s.toList.length - n))

/-- The `apiBase.replace(/\/$/, "")` step of `apiUrl`: the non-global
anchored regex removes exactly one trailing slash when present. -/
def stripOneTrailingSlash (s : String) : String :=
  if strEndsWith s "/" then strDropRight s 1 else s

/-- apiUrl from `frontend/src/api.ts`, with `window.location.origin`
passed explicitly. -/
def apiUrl (origin apiBase path : String) : String :=
  let full := stripOneTrailingSlash apiBase ++ path
  if strStartsWith full "http" then full
  else origin ++ (if strStartsWith full "/" then full else "/" ++ full)

/-- A JavaScript value as it can appear in `fetchQueue`'s `params`
object; a number is carried by its JavaScript string rendering. -/
inductive JSVal where
  | vstr (s : String)
  | vnum (rendered : String)
  | vnull
  | vundef
deriving DecidableEq, Repr

/-- The `String(v)` rendering used for query values. -/
def jsString : JSVal → String
  | JSVal.vstr s => s
  | JSVal.vnum rendered => rendered
  | JSVal.vnull => "null"
  | JSVal.vundef => "undefined"

/-- The `v != null && v !== ""` guard of `fetchQueue` (loose `!= null`
excludes both null and undefined; `!== ""` is a strict comparison, so
only the empty string fails it). -/
def includeParam : JSVal → Bool
  | JSVal.vnull => false
  | JSVal.vundef => false
  | JSVal.vstr s => !(s = "")
  | JSVal.vnum _ => true

/-- Semantics of `url.searchParams.set`: replace the value of an
existing key, else append the pair. -/
def setSearchParam (ps : List (String × String)) (k v : String) :
    List (String × String) :=
  match ps with
  | [] => [(k, v)]
  | (k0, v0) :: rest =>
    if k0 = k then (k0, v) :: rest else (k0, v0) :: setSearchParam rest k v

/-- The `Object.entries(params).forEach` loop of `fetchQueue`: set each
param whose value passes the guard. -/
def fetchQueueSearchParams (params : List (String × JSVal)) :
    List (String × String) :=
  params.foldl (fun ps kv =>
    if includeParam kv.2 then setSearchParam ps kv.1 (jsString kv.2) else ps) []

/-- The params object built by `QueueView.tsx`: `component` and `state`
under JS truthiness (non-empty string), `min_score` exactly when
`parseFloat(filterMinScore)` is not NaN (`minParsed` is the rendered
parse result, `none` for NaN). -/
def queueViewParams (filterComponent filterState : String)
    (minParsed : Option String) : List (String × JSVal) :=
  (if filterComponent = "" then [] else [("component", JSVal.vstr filterComponent)]) ++
  (if filterState = "" then [] else [("state", JSVal.vstr filterState)]) ++
  (match minParsed with
   | none => []
   | some rendered => [("min_score", JSVal.vnum rendered)])

/-! ## Claim C8 — the Reason record's field names -/

/-- C8 counterexample: the claim says the explanation field of a `Reason`
record is named `text`, but the source interface
(`frontend/src/api.ts`) declares the keys `reason`, `score_contribution`,
`evidence_refs`: the source key list differs from the spec's key list and
contains no `text` key. -/
theorem reason_field_named_text_false :
    reasonKeys ≠ reasonSpecKeys ∧ "text" ∉ reasonKeys := by
  decide

/-- C8 (amended): every `Reason` record consists of exactly the fields
`reason` (the explanation string), `score_contribution` and
`evidence_refs`; in particular the explanation field is named `reason`,
not `text`. -/
theorem reason_field_names :
    reasonKeys = ["reason", "score_contribution", "evidence_refs"] ∧
    "reason" ∈ reasonKeys ∧ "text" ∉ reasonKeys := by
  decide

/-! ## Claim C9 — apiUrl -/

/-- C9: `apiUrl` removes exactly one trailing `/` from `apiBase` when
present (the anchored non-global regex `\/$`), appends `path`, returns
the result unchanged when it starts with `http`, and otherwise prepends
`window.location.origin`, inserting a `/` exactly when the result does
not already start with `/`; for fixed origin it is deterministic. -/
theorem apiUrl_spec (origin apiBase path : String) :
    (strEndsWith apiBase "/" = true →
      (stripOneTrailingSlash apiBase).toList = apiBase.toList.dropLast) ∧
    (strEndsWith apiBase "/" = false →
      stripOneTrailingSlash apiBase = apiBase) ∧
    (strStartsWith (stripOneTrailingSlash apiBase ++ path) "http" = true →
      apiUrl origin apiBase path = stripOneTrailingSlash apiBase ++ path) ∧
    (strStartsWith (stripOneTrailingSlash apiBase ++ path) "http" = false →
      (strStartsWith (stripOneTrailingSlash apiBase ++ path) "/" = true →
        apiUrl origin apiBase path =
          origin ++ (stripOneTrailingSlash apiBase ++ path)) ∧
      (strStartsWith (stripOneTrailingSlash apiBase ++ path) "/" = false →
        apiUrl origin apiBase path =
          origin ++ "/" ++ (stripOneTrailingSlash apiBase ++ path))) ∧
    (∀ base2 path2, base2 = apiBase → path2 = path →
      apiUrl origin base2 path2 = apiUrl origin apiBase path) := by
  refine ⟨?_, ?_, ?_, ?_, ?_⟩
  · intro hslash
    simp only [stripOneTrailingSlash, hslash, if_pos]
    simp [strDropRight, List.dropLast_eq_take]
  · intro hslash
    simp [stripOneTrailingSlash, hslash]
  · intro hhttp
    simp [apiUrl, hhttp]
  · intro hhttp
    constructor
    · intro hroot
      simp [apiUrl, hhttp, hroot]
    · intro hroot
      simp [apiUrl, hhttp, hroot, String.append_assoc]
  · intro base2 path2 hb hp
    rw [hb, hp]

/-- C9 witness: concrete evaluation at
`apiUrl "http://h" "/api/" "/queue"` — the trailing slash is removed, the
result does not start with `http`, so the origin is prepended without an
extra slash. -/
theorem apiUrl_spec_witness :
    strEndsWith "/api/" "/" = true ∧
    (stripOneTrailingSlash "/api/").toList = "/api/".toList.dropLast ∧
    strStartsWith (stripOneTrailingSlash "/api/" ++ "/queue") "http" = false ∧
    strStartsWith (stripOneTrailingSlash "/api/" ++ "/queue") "/" = true ∧
    apiUrl "http://h" "/api/" "/queue" =
      "http://h" ++ (stripOneTrailingSlash "/api/" ++ "/queue") := by
  have h := apiUrl_spec "http://h" "/api/" "/queue"
  refine ⟨by decide, h.1 (by decide), by decide, by decide, ?_⟩
  exact (h.2.2.2.1 (by decide)).1 (by decide)

/-! ## Claim C10 — fetchQueue query parameters -/

theorem setSearchParam_of_not_mem (ps : List (String × String)) (k v : String)
    (h : k ∉ ps.map Prod.fst) : setSearchParam ps k v = ps ++ [(k, v)] := by
  induction ps with
  | nil => rfl
  | cons kv rest ih =>
    simp only [List.map_cons, List.mem_cons] at h
    push_neg at h
    simp [setSearchParam, Ne.symm h.1, ih h.2]

/-- The forEach loop appends exactly the params passing the guard, in
order, whenever the keys are distinct. -/
theorem fetchQueueSearchParams_eq (params : List (String × JSVal))
    (acc : List (String × String))
    (hd : ∀ k ∈ acc.map Prod.fst, k ∉ params.map Prod.fst)
    (hn : (params.map Prod.fst).Nodup) :
    params.foldl (fun ps kv =>
        if includeParam kv.2 then setSearchParam ps kv.1 (jsString kv.2) else ps)
      acc =
    acc ++ (params.filter (fun kv => includeParam kv.2)).map
      (fun kv => (kv.1, jsString kv.2)) := by
  induction params generalizing acc with
  | nil => simp
  | cons kv rest ih =>
    simp only [List.map_cons, List.nodup_cons] at hn
    by_cases hi : includeParam kv.2
    · have hknot : kv.1 ∉ acc.map Prod.fst := by
        intro hk
        exact hd kv.1 hk (by simp)
      have hset : setSearchParam acc kv.1 (jsString kv.2) = acc ++ [(kv.1, jsString kv.2)] :=
        setSearchParam_of_not_mem acc kv.1 (jsString kv.2) hknot
      simp only [List.foldl_cons, if_pos hi, hset]
      rw [ih (acc ++ [(kv.1, jsString kv.2)])]
      · simp [hi]
      · intro k hk
        simp only [List.map_append, List.mem_append, List.map_cons] at hk
        rcases hk with hk | hk
        · intro hmem
          exact hd k hk (by simp [hmem])
        · simp at hk
          subst hk
          exact hn.1
      · exact hn.2
    · simp only [List.foldl_cons, if_neg hi]
      rw [ih acc]
      · simp [hi]
      · intro k hk hmem
        exact hd k hk (by simp [hmem])
      · exact hn.2

/-- C10: a filter key appears in the `/queue` query exactly when its
value is neither null/undefined nor the empty string, with the
`String(v)` rendering as its value (for a params object, whose keys are
distinct); and in `QueueView` the `min_score` key is present exactly when
`parseFloat` of the filter input is not NaN (`minParsed` carries the
rendered parse result, `none` for NaN). -/
theorem fetchQueue_params_spec :
    (∀ (params : List (String × JSVal)), (params.map Prod.fst).Nodup →
      ∀ k s, (k, s) ∈ fetchQueueSearchParams params ↔
        ∃ v, (k, v) ∈ params ∧ includeParam v = true ∧ s = jsString v) ∧
    (∀ filterComponent filterState minParsed,
      ("min_score" ∈ (fetchQueueSearchParams
          (queueViewParams filterComponent filterState minParsed)).map Prod.fst) ↔
        minParsed.isSome = true) := by
  have hmain : ∀ (params : List (String × JSVal)), (params.map Prod.fst).Nodup →
      fetchQueueSearchParams params =
        (params.filter (fun kv => includeParam kv.2)).map
          (fun kv => (kv.1, jsString kv.2)) := by
    intro params hn
    have := fetchQueueSearchParams_eq params [] (by simp) hn
    simpa [fetchQueueSearchParams] using this
  constructor
  · intro params hn k s
    rw [hmain params hn]
    simp only [List.mem_map, List.mem_filter]
    constructor
    · rintro ⟨kv, ⟨hmem, hinc⟩, heq⟩
      refine ⟨kv.2, ?_, hinc, ?_⟩
      · have : kv.1 = k := congrArg Prod.fst heq
        rw [← this]; exact hmem
      · exact (congrArg Prod.snd heq).symm
    · rintro ⟨v, hmem, hinc, rfl⟩
      exact ⟨(k, v), ⟨hmem, hinc⟩, rfl⟩
  · intro filterComponent filterState minParsed
    have hnodup : ((queueViewParams filterComponent filterState minParsed).map
        Prod.fst).Nodup := by
      by_cases h1 : filterComponent = "" <;> by_cases h2 : filterState = "" <;>
        cases minParsed <;> simp [queueViewParams, h1, h2]
    rw [hmain _ hnodup]
    by_cases h1 : filterComponent = "" <;> by_cases h2 : filterState = "" <;>
      cases minParsed <;>
      simp [queueViewParams, h1, h2, includeParam]

/-- C10 witness: a concrete params object — `component` (non-empty
string) and `min_score` (a number) are in the query, `state` (null) and
`build_from` (empty string) are not. -/
theorem fetchQueue_params_spec_witness :
    (("component", "syslogd") ∈ fetchQueueSearchParams
        [("component", JSVal.vstr "syslogd"), ("state", JSVal.vnull),
         ("min_score", JSVal.vnum "1.5"), ("build_from", JSVal.vstr "")]) ∧
    (¬ ("state", "null") ∈ fetchQueueSearchParams
        [("component", JSVal.vstr "syslogd"), ("state", JSVal.vnull),
         ("min_score", JSVal.vnum "1.5"), ("build_from", JSVal.vstr "")]) ∧
    (("min_score" ∈ (fetchQueueSearchParams
        (queueViewParams "syslogd" "" (some "1.5"))).map Prod.fst)) ∧
    (¬ "min_score" ∈ (fetchQueueSearchParams
        (queueViewParams "syslogd" "" none)).map Prod.fst) := by
  refine ⟨?_, ?_, ?_, ?_⟩
  · exact (fetchQueue_params_spec.1 _ (by decide) "component" "syslogd").mpr
      ⟨JSVal.vstr "syslogd", by decide, by decide, by decide⟩
  · intro hmem
    rcases (fetchQueue_params_spec.1 _ (by decide) "state" "null").mp hmem with
      ⟨v, hv, hinc, _⟩
    simp only [List.mem_cons, List.not_mem_nil, or_false, Prod.mk.injEq] at hv
    rcases hv with ⟨h, _⟩ | ⟨_, rfl⟩ | ⟨h, _⟩ | ⟨h, _⟩
    · exact absurd h (by decide)
    · exact absurd hinc (by decide)
    · exact absurd h (by decide)
    · exact absurd h (by decide)
  · exact (fetchQueue_params_spec.2 "syslogd" "" (some "1.5")).mpr (by decide)
  · intro hmem
    have := (fetchQueue_params_spec.2 "syslogd" "" none).mp hmem
    exact absurd this (by decide)

/-! ## Concrete demo data used by the claim witnesses -/

/-- Demo hunk: one inserted allocation line in `parser.c`. -/
def demoHunk : DiffHunk := mkHunk "parser.c" 2 2 [] ["p = malloc(count * size);"]

/-- Demo feature: allocation sizing derived from `demoHunk`. -/
def demoFeature : SourceFeature := mkFeature "alloc_math" demoHunk

/-- Demo binary feature set. -/
def demoBF : BinaryFeatureSet :=
  { strings := ["disk full error"], imports := [], symbols := ["_main"]
    notices := [] }

/-- Demo log template whose format string is a binary string. -/
def demoTemplate : LogTemplate := mkTemplate ("sys", "cat", "disk full error")

/-- Demo bundle: internally consistent (every referenced StableId
resolves). -/
def demoBundle : EvidenceBundle :=
  mkBundle [demoHunk] [demoFeature] demoBF demoBF [] [demoTemplate]
    [(demoTemplate.template_id, "disk full error")]

/-! ## Claim C2 — total_score is the plain sum of contributions -/

/-- C2: the ScoringEngine's `total_score` is the sum of
`score_contribution` over the reasons, with no other adjustment, and rule
evaluation order does not affect the total (any permutation of the rule
list yields the same `total_score`). -/
theorem total_score_is_sum_of_contributions :
    (∀ (b : EvidenceBundle) (d : String),
      (scoreBundle b d).total_score =
        ((scoreBundle b d).reasons.map (fun r => r.score_contribution)).sum) ∧
    (∀ (rules rules2 : List (EvidenceBundle → List Reason))
        (b : EvidenceBundle) (d : String), rules.Perm rules2 →
      (scoreWithRules rules b d).total_score =
        (scoreWithRules rules2 b d).total_score) := by
  constructor
  · intro b d
    rfl
  · intro rules rules2 b d hperm
    simp only [scoreWithRules]
    exact List.Perm.sum_eq
      (List.Perm.map _ (List.Perm.flatMap_right (fun rule => rule b) hperm))

/-- C2 witness: on the demo bundle the contributions are 50 and 10, the
total equals their sum, and swapping two rules leaves it unchanged. -/
theorem total_score_is_sum_witness :
    (scoreBundle demoBundle "1").total_score =
      ((scoreBundle demoBundle "1").reasons.map
        (fun r => r.score_contribution)).sum ∧
    (scoreWithRules [allocRule, logMatchRule] demoBundle "1").total_score =
      (scoreWithRules [logMatchRule, allocRule] demoBundle "1").total_score ∧
    (scoreBundle demoBundle "1").reasons.map (fun r => r.score_contribution) =
      [50, 10] := by
  refine ⟨total_score_is_sum_of_contributions.1 demoBundle "1", ?_, by decide⟩
  exact total_score_is_sum_of_contributions.2 [allocRule, logMatchRule]
    [logMatchRule, allocRule] demoBundle "1" (List.Perm.swap _ _ _)

/-! ## Claim C3 — every Reason carries evidence -/

/-- C3: every `Reason` produced by the ScoringEngine on any bundle has a
non-empty `evidence_refs` list; each rule emits the refs that triggered
it, so a reason without evidence cannot be constructed. -/
theorem reasons_evidence_refs_nonempty (b : EvidenceBundle) (d : String) :
    ∀ r ∈ (scoreBundle b d).reasons, r.evidence_refs ≠ [] := by
  intro r hr
  have h : r ∈ allocRule b ∨ r ∈ logMatchRule b ∨ r ∈ unmatchedRule b := by
    simpa [scoreBundle, scoreWithRules, scoringRules] using hr
  rcases h with hr1 | hr1 | hr1
  · rw [allocRule] at hr1
    obtain ⟨f, hf, hfe⟩ := List.mem_map.mp hr1
    rw [← hfe]
    simp
  · rw [logMatchRule] at hr1
    obtain ⟨m, hm, hme⟩ := List.mem_map.mp hr1
    rw [← hme]
    simp
  · rw [unmatchedRule] at hr1
    split at hr1
    · exact absurd hr1 (List.not_mem_nil r)
    · obtain ⟨p, hp, hpp⟩ := List.mem_flatMap.mp hr1
      obtain ⟨s, hs, hse⟩ := List.mem_map.mp hpp
      rw [← hse]
      simp

/-- C3 witness: the allocation reason produced on the demo bundle exists
and has a non-empty evidence list. -/
theorem reasons_evidence_refs_nonempty_witness :
    ({ reason := "allocation sizing without paired bounds check"
       score_contribution := allocContribution
       evidence_refs := [mkRef "source_feature" demoFeature.feature_id,
           mkRef "diff_hunk" demoHunk.hunk_id] } : Reason) ∈
      (scoreBundle demoBundle "1").reasons ∧
    ({ reason := "allocation sizing without paired bounds check"
       score_contribution := allocContribution
       evidence_refs := [mkRef "source_feature" demoFeature.feature_id,
           mkRef "diff_hunk" demoHunk.hunk_id] } : Reason).evidence_refs ≠ [] := by
  constructor
  · decide
  · exact reasons_evidence_refs_nonempty demoBundle "1" _ (by decide)

/-! ## Claim C7 — template idempotence and first-seen order -/

theorem extractGo_eq_firstSeenDedup (lines : List RawLogLine)
    (seen : List TemplateKey) :
    extractGo lines seen =
      (firstSeenDedup ((lines.map rawKey).filter
        (fun k => decide (k ∉ seen)))).map mkTemplate := by
  induction lines generalizing seen with
  | nil => simp [extractGo, firstSeenDedup]
  | cons l rest ih =>
    by_cases hk : rawKey l ∈ seen
    · simp only [extractGo, hk, if_pos, List.map_cons, List.filter_cons,
        decide_eq_true_eq]
      rw [if_neg (by simp [hk])]
      exact ih seen
    · simp only [extractGo, hk, if_neg, not_false_iff, List.map_cons,
        List.filter_cons, decide_eq_true_eq]
      rw [if_pos (by simp [hk])]
      rw [firstSeenDedup, List.map_cons]
      congr 1
      rw [ih (rawKey l :: seen), List.filter_filter]
      have hfun : (fun a : TemplateKey => decide (a ≠ rawKey l) && decide (a ∉ seen)) =
          (fun a : TemplateKey => decide (a ∉ rawKey l :: seen)) := by
        funext a
        by_cases h1 : a ∈ seen <;> by_cases h2 : a = rawKey l <;>
          simp [h1, h2]
      rw [hfun]

/-- C7: re-extracting templates from an unchanged log stream yields the
same `LogTemplate` list with the same `template_id`s, and the output is
exactly one template per distinct `(subsystem, category, format_string)`
shape, in first-seen order, each with the StableId derived from its
shape. -/
theorem template_extraction_first_seen (lines lines2 : List RawLogLine)
    (h : lines = lines2) :
    extractTemplates lines = extractTemplates lines2 ∧
    extractTemplates lines =
      (firstSeenDedup (lines.map rawKey)).map mkTemplate ∧
    (extractTemplates lines).map (fun t => t.template_id) =
      (firstSeenDedup (lines.map rawKey)).map templateIdOf := by
  subst h
  have hmain : extractTemplates lines =
      (firstSeenDedup (lines.map rawKey)).map mkTemplate := by
    rw [extractTemplates, extractGo_eq_firstSeenDedup]
    congr 1
    congr 1
    apply List.filter_eq_self.mpr
    intro k _
    simp
  refine ⟨rfl, hmain, ?_⟩
  rw [hmain, List.map_map]
  rfl

/-- C7 witness: a concrete three-line stream with two lines sharing one
shape (differing only in a number) yields two templates in first-seen
order, unchanged on re-extraction. -/
theorem template_extraction_first_seen_witness :
    extractTemplates
        [⟨"sys", "cat", "saw 42 drops"⟩, ⟨"sys", "cat", "saw 7 drops"⟩,
         ⟨"sys", "net", "link up"⟩] =
      extractTemplates
        [⟨"sys", "cat", "saw 42 drops"⟩, ⟨"sys", "cat", "saw 7 drops"⟩,
         ⟨"sys", "net", "link up"⟩] ∧
    extractTemplates
        [⟨"sys", "cat", "saw 42 drops"⟩, ⟨"sys", "cat", "saw 7 drops"⟩,
         ⟨"sys", "net", "link up"⟩] =
      (firstSeenDedup
        (([⟨"sys", "cat", "saw 42 drops"⟩, ⟨"sys", "cat", "saw 7 drops"⟩,
           ⟨"sys", "net", "link up"⟩] : List RawLogLine).map rawKey)).map
        mkTemplate ∧
    extractTemplates
        [⟨"sys", "cat", "saw 42 drops"⟩, ⟨"sys", "cat", "saw 7 drops"⟩,
         ⟨"sys", "net", "link up"⟩] =
      [mkTemplate ("sys", "cat", "saw <NUM> drops"),
       mkTemplate ("sys", "net", "link up")] := by
  have h := template_extraction_first_seen
    [⟨"sys", "cat", "saw 42 drops"⟩, ⟨"sys", "cat", "saw 7 drops"⟩,
     ⟨"sys", "net", "link up"⟩]
    [⟨"sys", "cat", "saw 42 drops"⟩, ⟨"sys", "cat", "saw 7 drops"⟩,
     ⟨"sys", "net", "link up"⟩] rfl
  exact ⟨h.1, h.2.1, by decide⟩

/-! ## Claim C5 — log/binary correlation is pure substring membership -/

theorem correlator_mem_iff (templates : List LogTemplate)
    (bin : BinaryFeatureSet) (tid s : String) :
    (tid, s) ∈ logBinaryCorrelator templates bin ↔
      ∃ t ∈ templates, tid = t.template_id ∧ s ∈ bin.strings ∧
        ∃ frag ∈ fragments t.format_string, frag.toList <:+: s.toList := by
  simp only [logBinaryCorrelator, List.mem_flatMap, List.mem_map,
    List.mem_filter, fragmentHits, List.any_eq_true, isSubList_eq_true_iff,
    Prod.mk.injEq]
  constructor
  · rintro ⟨t, ht, a, ⟨ha, frag, hfrag, hsub⟩, htid, hs⟩
    subst hs
    exact ⟨t, ht, htid.symm, ha, frag, hfrag, hsub⟩
  · rintro ⟨t, ht, htid, hs, frag, hfrag, hsub⟩
    exact ⟨t, ht, s, ⟨hs, frag, hfrag, hsub⟩, htid.symm, rfl⟩

/-- C5: the correlator's output contains `(template_id, string)` exactly
when the template's literal format string — or a literal fragment of it —
occurs verbatim as a contiguous substring of that string of the binary's
string table; nothing fuzzy. -/
theorem correlator_substring_membership (templates : List LogTemplate)
    (bin : BinaryFeatureSet) (tid s : String) :
    (tid, s) ∈ logBinaryCorrelator templates bin ↔
      ∃ t ∈ templates, tid = t.template_id ∧ s ∈ bin.strings ∧
        ∃ frag ∈ fragments t.format_string, frag.toList <:+: s.toList :=
  correlator_mem_iff templates bin tid s

/-- C5 witness: a template whose literal string is in the binary's table
yields exactly that one match, an unrelated table yields none, and the
membership characterization holds at the concrete match. -/
theorem correlator_substring_membership_witness :
    logBinaryCorrelator [mkTemplate ("sys", "cat", "disk full error")] demoBF =
      [(templateIdOf ("sys", "cat", "disk full error"), "disk full error")] ∧
    logBinaryCorrelator [mkTemplate ("sys", "cat", "disk full error")]
      { strings := ["unrelated thing"], imports := [], symbols := []
        notices := [] } = [] ∧
    (∃ t ∈ [mkTemplate ("sys", "cat", "disk full error")],
      templateIdOf ("sys", "cat", "disk full error") = t.template_id ∧
      "disk full error" ∈ demoBF.strings ∧
      ∃ frag ∈ fragments t.format_string,
        frag.toList <:+: "disk full error".toList) := by
  refine ⟨by decide, by decide, ?_⟩
  exact (correlator_substring_membership
    [mkTemplate ("sys", "cat", "disk full error")] demoBF
    (templateIdOf ("sys", "cat", "disk full error")) "disk full error").mp
    (by decide)

/-! ## Claim C1 — no dangling citations, assembly failure otherwise -/

theorem mem_stableIds_of_feature {b : EvidenceBundle} {f : SourceFeature}
    (hf : f ∈ b.source_features) : f.feature_id ∈ b.stableIds := by
  have h : f.feature_id ∈ b.source_features.map (fun x => x.feature_id) :=
    List.mem_map_of_mem _ hf
  simp only [EvidenceBundle.stableIds, List.mem_append]
  tauto

theorem mem_stableIds_of_hunk {b : EvidenceBundle} {hid : String}
    (h : hid ∈ b.diff_hunks.map (fun x => x.hunk_id)) : hid ∈ b.stableIds := by
  simp only [EvidenceBundle.stableIds, List.mem_append]
  tauto

theorem mem_stableIds_of_template {b : EvidenceBundle} {t : LogTemplate}
    (ht : t ∈ b.log_templates) : t.template_id ∈ b.stableIds := by
  have h : t.template_id ∈ b.log_templates.map (fun x => x.template_id) :=
    List.mem_map_of_mem _ ht
  simp only [EvidenceBundle.stableIds, List.mem_append]
  tauto

theorem mem_stableIds_of_string_to {b : EvidenceBundle} {s : String}
    (hs : s ∈ b.binary_features_to.strings) : s ∈ b.stableIds := by
  simp only [EvidenceBundle.stableIds, List.mem_append]
  tauto

theorem mem_stableIds_of_symbol {b : EvidenceBundle} {s : String}
    (hs : s ∈ b.binary_features_from.symbols ∨ s ∈ b.binary_features_to.symbols) :
    s ∈ b.stableIds := by
  simp only [EvidenceBundle.stableIds, List.mem_append]
  tauto

theorem mem_referencedIds_of_feature_hunk {b : EvidenceBundle}
    {f : SourceFeature} (hf : f ∈ b.source_features) {hid : String}
    (hh : hid ∈ f.hunk_ids) : hid ∈ b.referencedIds := by
  have h : ∃ g ∈ b.source_features, hid ∈ g.hunk_ids := ⟨f, hf, hh⟩
  simp only [EvidenceBundle.referencedIds, List.mem_append, List.mem_flatMap]
  exact Or.inl (Or.inl h)

theorem mem_referencedIds_of_pair {b : EvidenceBundle} {p : BinaryDiffPair}
    (hp : p ∈ b.binary_diff_pairs) {s : String} (hs : s ∈ pairSymbols p) :
    s ∈ b.referencedIds := by
  have h : ∃ q ∈ b.binary_diff_pairs, s ∈ pairSymbols q := ⟨p, hp, hs⟩
  simp only [EvidenceBundle.referencedIds, List.mem_append, List.mem_flatMap]
  exact Or.inl (Or.inr h)

theorem mem_referencedIds_of_match {b : EvidenceBundle} {m : String × String}
    (hm : m ∈ b.log_to_binary_matches) :
    m.1 ∈ b.referencedIds ∧ m.2 ∈ b.referencedIds := by
  have h1 : ∃ m2 ∈ b.log_to_binary_matches, m.1 ∈ [m2.1, m2.2] :=
    ⟨m, hm, by simp⟩
  have h2 : ∃ m2 ∈ b.log_to_binary_matches, m.2 ∈ [m2.1, m2.2] :=
    ⟨m, hm, by simp⟩
  constructor
  · simp only [EvidenceBundle.referencedIds, List.mem_append, List.mem_flatMap]
    exact Or.inr h1
  · simp only [EvidenceBundle.referencedIds, List.mem_append, List.mem_flatMap]
    exact Or.inr h2

/-- Every EvidenceRef cited by any reason of the ScoringEngine resolves
within the bundle, provided the bundle's own references resolve. -/
theorem scoreRefs_resolve (b : EvidenceBundle) (d : String)
    (h : ∀ id ∈ b.referencedIds, id ∈ b.stableIds) :
    ∀ r ∈ (scoreBundle b d).reasons, ∀ e ∈ r.evidence_refs,
      e.stable_id ∈ b.stableIds := by
  intro r hr e he
  have hcase : r ∈ allocRule b ∨ r ∈ logMatchRule b ∨ r ∈ unmatchedRule b := by
    simpa [scoreBundle, scoreWithRules, scoringRules] using hr
  rcases hcase with hr1 | hr1 | hr1
  · rw [allocRule] at hr1
    obtain ⟨f, hf, hfe⟩ := List.mem_map.mp hr1
    have hfmem : f ∈ b.source_features := (List.mem_filter.mp hf).1
    rw [← hfe] at he
    simp only [List.mem_cons, List.mem_map] at he
    rcases he with rfl | ⟨hid, hhid, rfl⟩
    · exact mem_stableIds_of_feature hfmem
    · exact h hid (mem_referencedIds_of_feature_hunk hfmem hhid)
  · rw [logMatchRule] at hr1
    obtain ⟨m, hm, hme⟩ := List.mem_map.mp hr1
    rw [← hme] at he
    simp only [List.mem_cons, List.not_mem_nil, or_false] at he
    rcases he with rfl | rfl
    · exact h m.1 (mem_referencedIds_of_match hm).1
    · exact h m.2 (mem_referencedIds_of_match hm).2
  · rw [unmatchedRule] at hr1
    split at hr1
    · exact absurd hr1 (List.not_mem_nil r)
    · obtain ⟨p, hp, hpp⟩ := List.mem_flatMap.mp hr1
      have hpmem : p ∈ b.binary_diff_pairs := (List.mem_filter.mp hp).1
      obtain ⟨s, hs, hse⟩ := List.mem_map.mp hpp
      rw [← hse] at he
      simp only [List.mem_singleton] at he
      subst he
      exact h s (mem_referencedIds_of_pair hpmem hs)

/-- C1: whenever the assembler returns a bundle, every StableId
referenced anywhere in it resolves to an entity present in it, and every
EvidenceRef of every reason in the ScoreResult computed from it resolves
in it; and whenever some referenced StableId does not resolve, assembly
raises a failure rather than silently dropping anything. -/
theorem assembler_validates_refs (hunks : List DiffHunk)
    (feats : List SourceFeature) (bfFrom bfTo : BinaryFeatureSet)
    (pairs : List BinaryDiffPair) (templates : List LogTemplate)
    (lbM : List (String × String)) (d : String) :
    (∀ b, assembleBundle hunks feats bfFrom bfTo pairs templates lbM =
        Except.ok b →
      (∀ id ∈ b.referencedIds, id ∈ b.stableIds) ∧
      ∀ r ∈ (scoreBundle b d).reasons, ∀ e ∈ r.evidence_refs,
        b.resolves e) ∧
    ((∃ id ∈ (mkBundle hunks feats bfFrom bfTo pairs templates lbM).referencedIds,
        id ∉ (mkBundle hunks feats bfFrom bfTo pairs templates lbM).stableIds) →
      assembleBundle hunks feats bfFrom bfTo pairs templates lbM =
        Except.error "assembly failure: dangling stable_id") := by
  constructor
  · intro b hb
    rw [assembleBundle] at hb
    split at hb
    · rename_i hv
      injection hb with hb2
      subst hb2
      exact ⟨hv, scoreRefs_resolve _ d hv⟩
    · exact absurd hb (by simp)
  · intro hex
    have hneg : ¬ ∀ id ∈ (mkBundle hunks feats bfFrom bfTo pairs templates
        lbM).referencedIds,
        id ∈ (mkBundle hunks feats bfFrom bfTo pairs templates lbM).stableIds := by
      rcases hex with ⟨id, hid, hnot⟩
      intro hall
      exact hnot (hall id hid)
    rw [assembleBundle]
    exact dif_neg hneg

/-- C1 witness: the demo bundle assembles successfully and both
resolution properties hold on it concretely. -/
theorem assembler_validates_refs_witness :
    assembleBundle [demoHunk] [demoFeature] demoBF demoBF [] [demoTemplate]
        [(demoTemplate.template_id, "disk full error")] =
      Except.ok demoBundle ∧
    (∀ id ∈ demoBundle.referencedIds, id ∈ demoBundle.stableIds) ∧
    (∀ r ∈ (scoreBundle demoBundle "1").reasons, ∀ e ∈ r.evidence_refs,
      demoBundle.resolves e) := by
  have happ := (assembler_validates_refs [demoHunk] [demoFeature] demoBF demoBF
    [] [demoTemplate] [(demoTemplate.template_id, "disk full error")] "1").1
    demoBundle (by rfl)
  exact ⟨by rfl, happ.1, happ.2⟩

/-! ## Claim C6 — malformed binaries degrade, the run completes -/

theorem deriveFeatures_cites (hunks : List DiffHunk) :
    ∀ f ∈ deriveFeatures hunks, ∃ hk ∈ hunks, f.hunk_ids = [hk.hunk_id] := by
  intro f hf
  obtain ⟨hk, hhk, hm⟩ := List.mem_flatMap.mp hf
  refine ⟨hk, hhk, ?_⟩
  simp only [featuresOfHunk, List.mem_append] at hm
  rcases hm with ((h | h) | h) | h <;> revert h <;> split <;>
    simp [mkFeature] <;> (rintro rfl; rfl)

theorem matcher_symbols (bfF bfT : BinaryFeatureSet) :
    ∀ p ∈ binaryDiffMatcher bfF bfT, ∀ s ∈ pairSymbols p,
      s ∈ bfF.symbols ∨ s ∈ bfT.symbols := by
  intro p hp s hs
  simp only [binaryDiffMatcher, List.mem_append, List.mem_map,
    List.mem_filter] at hp
  rcases hp with ⟨a, ha, hpe⟩ | ⟨a, ⟨ha, _⟩, hpe⟩
  · rw [← hpe] at hs
    revert hs
    split
    · rename_i hmem
      simp only [pairSymbols, Option.toList_some, List.mem_append,
        List.mem_singleton]
      rintro (rfl | rfl)
      · exact Or.inl ha
      · exact Or.inl ha
    · simp only [pairSymbols, Option.toList_some, Option.toList_none,
        List.append_nil, List.mem_singleton]
      rintro rfl
      exact Or.inl ha
  · rw [← hpe] at hs
    simp only [pairSymbols, Option.toList_some, Option.toList_none,
      List.nil_append, List.mem_singleton] at hs
    subst hs
    exact Or.inr ha

/-- Every StableId referenced inside a pipeline-assembled bundle resolves
within it: features cite their own hunks, diff pairs cite extracted
symbols, and matches cite the correlated templates and binary strings. -/
theorem pipelineBundle_valid (hunks : List DiffHunk)
    (bfF bfT : BinaryFeatureSet) (tmplF tmplT : List LogTemplate) :
    ∀ id ∈ (mkBundle hunks (deriveFeatures hunks) bfF bfT
        (binaryDiffMatcher bfF bfT) (tmplF ++ tmplT)
        (logBinaryCorrelator tmplT bfT)).referencedIds,
      id ∈ (mkBundle hunks (deriveFeatures hunks) bfF bfT
        (binaryDiffMatcher bfF bfT) (tmplF ++ tmplT)
        (logBinaryCorrelator tmplT bfT)).stableIds := by
  intro id hid
  simp only [EvidenceBundle.referencedIds, mkBundle, List.mem_append,
    List.mem_flatMap] at hid
  rcases hid with (⟨f, hf, hhid⟩ | ⟨p, hp, hsym⟩) | ⟨m, hm, hmm⟩
  · obtain ⟨hk, hhk, heq⟩ := deriveFeatures_cites hunks f hf
    rw [heq] at hhid
    simp only [List.mem_singleton] at hhid
    subst hhid
    exact mem_stableIds_of_hunk (List.mem_map_of_mem _ hhk)
  · have hd := matcher_symbols bfF bfT p hp id hsym
    exact mem_stableIds_of_symbol hd
  · obtain ⟨tid, str⟩ := m
    obtain ⟨t, ht, htid, hstr, _⟩ :=
      (correlator_mem_iff tmplT bfT tid str).mp hm
    simp only [List.mem_cons, List.not_mem_nil, or_false] at hmm
    rcases hmm with rfl | rfl
    · subst htid
      exact mem_stableIds_of_template
        (List.mem_append.mpr (Or.inr ht))
    · exact mem_stableIds_of_string_to hstr

/-- The full diff run never aborts: the assembler's structural validation
always passes on a pipeline-assembled bundle. -/
theorem pipeline_always_ok (tA tB : SourceTree) (bF bT : List Nat)
    (lF lT : List RawLogLine) (d : String) :
    ∃ res, runPipeline tA tB bF bT lF lT d = Except.ok res := by
  have hv := pipelineBundle_valid (sourceDiffHunks tA tB)
    (extractBinaryFeatures bF) (extractBinaryFeatures bT)
    (extractTemplates lF) (extractTemplates lT)
  simp only [runPipeline, assembleBundle]
  rw [dif_pos hv]
  exact ⟨_, rfl⟩

/-- C6: for every malformed or truncated binary artifact, extraction
yields a `BinaryFeatureSet` with every populated field empty together
with a recorded malformation notice, and the whole diff run still
completes — per-artifact failures are never fatal for the run. -/
theorem malformed_binary_degrades_nonfatal (bytes : List Nat)
    (hbad : validHeader bytes = false) :
    (extractBinaryFeatures bytes).strings = [] ∧
    (extractBinaryFeatures bytes).imports = [] ∧
    (extractBinaryFeatures bytes).symbols = [] ∧
    (extractBinaryFeatures bytes).notices =
      ["malformed or truncated binary"] ∧
    ∀ (tA tB : SourceTree) (binFrom : List Nat) (lF lT : List RawLogLine)
      (d : String),
      ∃ res, runPipeline tA tB binFrom bytes lF lT d = Except.ok res := by
  refine ⟨?_, ?_, ?_, ?_, ?_⟩
  · simp [extractBinaryFeatures, hbad]
  · simp [extractBinaryFeatures, hbad]
  · simp [extractBinaryFeatures, hbad]
  · simp [extractBinaryFeatures, hbad]
  · intro tA tB binFrom lF lT d
    exact pipeline_always_ok tA tB binFrom bytes lF lT d

/-- C6 witness: a binary truncated mid-header (a single magic byte)
degrades to empty features with a notice, and a concrete diff run over it
still completes. -/
theorem malformed_binary_degrades_nonfatal_witness :
    validHeader [0xcf] = false ∧
    (extractBinaryFeatures [0xcf]).strings = [] ∧
    (extractBinaryFeatures [0xcf]).notices =
      ["malformed or truncated binary"] ∧
    ∃ res, runPipeline [("a.c", ["x"])] [("a.c", ["x", "y"])] [] [0xcf]
      [] [] "1" = Except.ok res := by
  have h := malformed_binary_degrades_nonfatal [0xcf] (by decide)
  exact ⟨by decide, h.1, h.2.2.2.1,
    h.2.2.2.2 [("a.c", ["x"])] [("a.c", ["x", "y"])] [] [] [] "1"⟩

/-! ## Claim C4 — the pipeline is deterministic and pure -/

/-- C4: each component and the composed pipeline are pure functions of
their inputs — re-running on equal inputs yields equal `DiffHunk` lists
(in the same order), equal StableIds, an equal assembled bundle and an
equal `ScoreResult`. -/
theorem pipeline_deterministic :
    (∀ (tA tB tA2 tB2 : SourceTree) (bF bT bF2 bT2 : List Nat)
        (lF lT lF2 lT2 : List RawLogLine) (d d2 : String),
      tA = tA2 → tB = tB2 → bF = bF2 → bT = bT2 → lF = lF2 → lT = lT2 →
      d = d2 →
      sourceDiffHunks tA tB = sourceDiffHunks tA2 tB2 ∧
      (sourceDiffHunks tA tB).map (fun h => h.hunk_id) =
        (sourceDiffHunks tA2 tB2).map (fun h => h.hunk_id) ∧
      runPipeline tA tB bF bT lF lT d =
        runPipeline tA2 tB2 bF2 bT2 lF2 lT2 d2) ∧
    (∀ (hunks hunks2 : List DiffHunk) (feats feats2 : List SourceFeature)
        (bfF bfF2 bfT bfT2 : BinaryFeatureSet)
        (pairs pairs2 : List BinaryDiffPair)
        (tmpl tmpl2 : List LogTemplate) (lbM lbM2 : List (String × String)),
      hunks = hunks2 → feats = feats2 → bfF = bfF2 → bfT = bfT2 →
      pairs = pairs2 → tmpl = tmpl2 → lbM = lbM2 →
      assembleBundle hunks feats bfF bfT pairs tmpl lbM =
        assembleBundle hunks2 feats2 bfF2 bfT2 pairs2 tmpl2 lbM2) ∧
    (∀ (b b2 : EvidenceBundle) (d d2 : String), b = b2 → d = d2 →
      scoreBundle b d = scoreBundle b2 d2) := by
  refine ⟨?_, ?_, ?_⟩
  · intro tA tB tA2 tB2 bF bT bF2 bT2 lF lT lF2 lT2 d d2 h1 h2 h3 h4 h5 h6 h7
    subst h1; subst h2; subst h3; subst h4; subst h5; subst h6; subst h7
    exact ⟨rfl, rfl, rfl⟩
  · intro hunks hunks2 feats feats2 bfF bfF2 bfT bfT2 pairs pairs2 tmpl tmpl2
      lbM lbM2 h1 h2 h3 h4 h5 h6 h7
    subst h1; subst h2; subst h3; subst h4; subst h5; subst h6; subst h7
    rfl
  · intro b b2 d d2 h1 h2
    subst h1; subst h2
    rfl

/-- C4 witness: two runs over a concrete diff agree, and the hunk
ordering and StableIds evaluate to the expected concrete values. -/
theorem pipeline_deterministic_witness :
    sourceDiffHunks [("a.c", ["x"])] [("a.c", ["x", "y"])] =
      sourceDiffHunks [("a.c", ["x"])] [("a.c", ["x", "y"])] ∧
    runPipeline [("a.c", ["x"])] [("a.c", ["x", "y"])] [] [] [] [] "1" =
      runPipeline [("a.c", ["x"])] [("a.c", ["x", "y"])] [] [] [] [] "1" ∧
    (sourceDiffHunks [("a.c", ["x"])] [("a.c", ["x", "y"])]).map
      (fun h => h.hunk_id) = ["a.c@2+2"] := by
  have h := pipeline_deterministic.1 [("a.c", ["x"])] [("a.c", ["x", "y"])]
    [("a.c", ["x"])] [("a.c", ["x", "y"])] [] [] [] [] [] [] [] [] "1" "1"
    rfl rfl rfl rfl rfl rfl rfl
  exact ⟨h.1, h.2.2, by decide⟩

end OssSensor
